import Mathlib

/-!
Verification of the actionize reducer library (src/src/index.js).

The JavaScript source is shallowly embedded: each JS function that the
claims mention is translated into an executable Lean definition, and the
claims are settled as theorems about those definitions.  JS objects used
as string-keyed maps are modelled as association lists kept in insertion
order; JS reference equality between state values is modelled as equality
in Lean (a handler that returns its argument unchanged models a handler
returning the same reference).  Strings are inspected through their
character lists (`String.data`) so that every definition evaluates by
kernel reduction.
-/

set_option autoImplicit false

namespace Actionize

/-! ## Action-type registry (index.js lines 2-32, `createActionType`)

The JS module keeps `globalActionTypeTicks` (map from prefix string to a
counter) and `globalActionTypes` (set of issued type strings).  Both are
modelled in a `Registry` structure and `createActionType` is passed the
registry explicitly, returning the (possibly unchanged) registry next to
the `Except` result: a JS `throw` happens before any mutation, so an
error leaves the registry exactly as it was.
-/

structure Registry where
  ticks : List (String × Nat)
  issued : List String
  deriving DecidableEq, Repr

inductive ActError where
  | invalidNamespace
  | invalidKey
  deriving DecidableEq, Repr

/-- Characters rejected inside a namespace: the regex `[\#\:\|]`. -/
def nsBadChar (c : Char) : Bool :=
  c = '#' || c = ':' || c = '|'

/-- Characters rejected inside a key: the regex `[\#\:\.\|]`. -/
def keyBadChar (c : Char) : Bool :=
  c = '#' || c = ':' || c = '.' || c = '|'

def validNs (ns : String) : Bool :=
  !(ns.data.any nsBadChar)

/-- JS `!key || key.match(...)` rejects the empty string and bad chars. -/
def validKey (key : String) : Bool :=
  !(key == "") && !(key.data.any keyBadChar)

/-- `globalActionTypeTicks[prefix] || 0`. -/
def lookupTick (reg : Registry) (pfx : String) : Nat :=
  match reg.ticks.find? (fun e => e.1 == pfx) with
  | some e => e.2
  | none => 0

/-- `globalActionTypeTicks[prefix] = tick`: JS property assignment
(replace the entry when the key is present, append it otherwise). -/
def setTick : List (String × Nat) → String → Nat → List (String × Nat)
  | [], pfx, n => [(pfx, n)]
  | (q, m) :: rest, pfx, n =>
    if q == pfx then (q, n) :: rest else (q, m) :: setTick rest pfx n

/-- Embedding of `createActionType(namespace, key)` (index.js 15-32).
The `typeof namespace !== 'string'` guard is vacuous in the typed
embedding; the remaining checks, the per-prefix tick counter, and the
`'|' + prefix (+ '#' + tick)` result are translated directly. -/
def createActionType (ns key : String) (reg : Registry) :
    Except ActError String × Registry :=
  if ns.data.any nsBadChar then (.error .invalidNamespace, reg)
  else if key == "" || key.data.any keyBadChar then (.error .invalidKey, reg)
  else
    let pfx := ns ++ ":" ++ key
    let tick := lookupTick reg pfx + 1
    let name := "|" ++ pfx ++ (if tick == 1 then "" else "#" ++ toString tick)
    (.ok name, { ticks := setTick reg.ticks pfx tick, issued := reg.issued ++ [name] })

theorem find_setTick_self (l : List (String × Nat)) (pfx : String) (n : Nat) :
    (setTick l pfx n).find? (fun e => e.1 == pfx) = some (pfx, n) := by
  induction l with
  | nil => simp [setTick]
  | cons hd tl ih =>
    obtain ⟨q, m⟩ := hd
    by_cases h : q = pfx
    · subst h
      simp [setTick]
    · have hq : (q == pfx) = false := by simpa using h
      simp only [setTick, hq, if_false, List.find?, Bool.false_eq_true]
      exact ih

theorem lookupTick_after_set (ticks : List (String × Nat)) (issued : List String)
    (pfx : String) (n : Nat) :
    lookupTick (Registry.mk (setTick ticks pfx n) issued) pfx = n := by
  unfold lookupTick
  simp [find_setTick_self]

theorem createActionType_valid (ns key : String) (reg : Registry)
    (hns : validNs ns = true) (hk : validKey key = true) :
    createActionType ns key reg =
      (Except.ok ("|" ++ (ns ++ ":" ++ key) ++
          (if lookupTick reg (ns ++ ":" ++ key) + 1 == 1 then ""
           else "#" ++ toString (lookupTick reg (ns ++ ":" ++ key) + 1))),
       Registry.mk
         (setTick reg.ticks (ns ++ ":" ++ key) (lookupTick reg (ns ++ ":" ++ key) + 1))
         (reg.issued ++ ["|" ++ (ns ++ ":" ++ key) ++
           (if lookupTick reg (ns ++ ":" ++ key) + 1 == 1 then ""
            else "#" ++ toString (lookupTick reg (ns ++ ":" ++ key) + 1))])) := by
  have hns' : ns.data.any nsBadChar = false := by
    simpa [validNs] using hns
  have hk1 : (key == "") = false := by
    unfold validKey at hk
    cases h : (key == "") <;> simp [h] at hk ⊢
  have hk2 : key.data.any keyBadChar = false := by
    unfold validKey at hk
    cases h : key.data.any keyBadChar <;> simp [h] at hk ⊢
  simp [createActionType, hns', hk1, hk2]

/-- C1 — allocation of a valid `(namespace, key)` pair never rejects: the
first allocation returns `'|' + namespace + ':' + key`; when the pair was
already allocated `n + 1` times, the next allocation returns the first
string with `'#' + (n + 2)` appended (so the second allocation carries
`#2`, the third `#3`, and so on), which is a string distinct from the
first; the per-pair counter is incremented in every case. -/
theorem action_type_allocation (ns key : String) (reg : Registry)
    (hns : validNs ns = true) (hk : validKey key = true) :
    (∃ name reg2, createActionType ns key reg = (Except.ok name, reg2)) ∧
    (lookupTick reg (ns ++ ":" ++ key) = 0 →
      (createActionType ns key reg).1 = Except.ok ("|" ++ (ns ++ ":" ++ key))) ∧
    (∀ n, lookupTick reg (ns ++ ":" ++ key) = n + 1 →
      (createActionType ns key reg).1 =
        Except.ok (("|" ++ (ns ++ ":" ++ key)) ++ ("#" ++ toString (n + 2))) ∧
      ("|" ++ (ns ++ ":" ++ key)) ++ ("#" ++ toString (n + 2)) ≠
        "|" ++ (ns ++ ":" ++ key)) ∧
    lookupTick (createActionType ns key reg).2 (ns ++ ":" ++ key) =
      lookupTick reg (ns ++ ":" ++ key) + 1 := by
  have hmain := createActionType_valid ns key reg hns hk
  refine ⟨⟨_, _, hmain⟩, ?_, ?_, ?_⟩
  · intro h0
    rw [hmain]
    simp [h0]
  · intro n hn
    constructor
    · rw [hmain]
      have hb : (n + 1 + 1 == 1) = false := by simp
      simp only [hn, hb, Bool.false_eq_true, if_false]
    · intro hcontra
      have hlen := congrArg String.length hcontra
      simp only [String.length_append] at hlen
      have h1 : ("#" : String).length = 1 := rfl
      omega
  · rw [hmain]
    exact lookupTick_after_set reg.ticks _ _ _

/-- Witness for C1 at a concrete input: allocating `("todos", "add")`. -/
theorem action_type_allocation_witness :
    validNs "todos" = true ∧ validKey "add" = true ∧
    ((∃ name reg2,
        createActionType "todos" "add" (Registry.mk [] []) = (Except.ok name, reg2)) ∧
     (lookupTick (Registry.mk [] []) ("todos" ++ ":" ++ "add") = 0 →
       (createActionType "todos" "add" (Registry.mk [] [])).1 =
         Except.ok ("|" ++ ("todos" ++ ":" ++ "add"))) ∧
     (∀ n, lookupTick (Registry.mk [] []) ("todos" ++ ":" ++ "add") = n + 1 →
       (createActionType "todos" "add" (Registry.mk [] [])).1 =
         Except.ok (("|" ++ ("todos" ++ ":" ++ "add")) ++ ("#" ++ toString (n + 2))) ∧
       ("|" ++ ("todos" ++ ":" ++ "add")) ++ ("#" ++ toString (n + 2)) ≠
         "|" ++ ("todos" ++ ":" ++ "add")) ∧
     lookupTick (createActionType "todos" "add" (Registry.mk [] [])).2
         ("todos" ++ ":" ++ "add") =
       lookupTick (Registry.mk [] []) ("todos" ++ ":" ++ "add") + 1) :=
  ⟨by decide, by decide,
    action_type_allocation "todos" "add" (Registry.mk [] []) (by decide) (by decide)⟩

/-- C6 — a namespace containing `|`, `:` or `#` fails with the
invalid-namespace error; a key that is empty or contains `|`, `:`, `#`
or `.` (under a well-formed namespace) fails with the invalid-key error;
in both cases the registry (counters and issued-type set) is returned
unchanged, so no type is issued. -/
theorem invalid_inputs_rejected (ns key : String) (reg : Registry) :
    (validNs ns = false →
      createActionType ns key reg = (Except.error ActError.invalidNamespace, reg)) ∧
    (validNs ns = true → validKey key = false →
      createActionType ns key reg = (Except.error ActError.invalidKey, reg)) := by
  constructor
  · intro h
    have h' : ns.data.any nsBadChar = true := by
      simpa [validNs] using h
    simp [createActionType, h']
  · intro hns hkey
    have hns' : ns.data.any nsBadChar = false := by
      simpa [validNs] using hns
    have h' : (key == "" || key.data.any keyBadChar) = true := by
      unfold validKey at hkey
      cases h1 : (key == "") <;> cases h2 : key.data.any keyBadChar <;>
        simp [h1, h2] at hkey ⊢
    simp [createActionType, hns', h']

/-- Witness for C6: a namespace containing `:` is rejected, and an empty
key under a clean namespace is rejected, both leaving the registry
untouched. -/
theorem invalid_inputs_rejected_witness :
    (validNs "a:b" = false →
      createActionType "a:b" "k" (Registry.mk [] []) =
        (Except.error ActError.invalidNamespace, Registry.mk [] [])) ∧
    (validNs "a:b" = true → validKey "k" = false →
      createActionType "a:b" "k" (Registry.mk [] []) =
        (Except.error ActError.invalidKey, Registry.mk [] [])) :=
  invalid_inputs_rejected "a:b" "k" (Registry.mk [] [])

/-! ## JavaScript values

States handled by reducers are arbitrary JS values.  `JVal` models them
(function values, which never occur as states in this library's tests or
docs, and string index properties are not modelled).  `JVal.jundefined` is the
JS `undefined` value: passing it to a reducer triggers the default
parameter `state = initialState`.  Objects are insertion-ordered field
lists (`JFields`, a mutual inductive so that decidable equality can be
derived). -/

mutual
inductive JVal where
  | jundefined
  | jnull
  | jbool (b : Bool)
  | jnum (n : Int)
  | jstr (s : String)
  | jobj (fields : JFields)
  deriving DecidableEq, Repr
inductive JFields where
  | nil
  | cons (key : String) (val : JVal) (rest : JFields)
  deriving DecidableEq, Repr
end

def JFields.lookup : JFields → String → Option JVal
  | .nil, _ => none
  | .cons k v rest, key => if k == key then some v else rest.lookup key

/-- JS property assignment on an object (overwrite in place or append). -/
def JFields.set : JFields → String → JVal → JFields
  | .nil, key, v => .cons key v .nil
  | .cons k w rest, key, v =>
    if k == key then .cons k v rest else .cons k w (rest.set key v)

/-- JS truthiness of a value (`state && ...`). -/
def truthy : JVal → Bool
  | .jundefined => false
  | .jnull => false
  | .jbool b => b
  | .jnum n => n != 0
  | .jstr s => s != ""
  | .jobj _ => true

/-- Property read `state[key]` on a defined value: `undefined` when the
key is missing or the value is not an object. -/
def getField (v : JVal) (key : String) : JVal :=
  match v with
  | .jobj fs => (fs.lookup key).getD .jundefined
  | _ => .jundefined

/-- Enumerable own fields of a value (`Object.assign` source semantics:
non-objects contribute nothing). -/
def objFields : JVal → JFields
  | .jobj fs => fs
  | _ => .nil

/-! ## Messages

A dispatched message is any value with an optional `type` field; the rest
of the payload is opaque to the dispatch logic, so only the type tag is
modelled.  An absent (`undefined`/`null`) message is `Option.none`. -/

structure Msg where
  mtype : Option String
  deriving DecidableEq, Repr

/-! ## Reducer dispatch (index.js lines 56-63, `reducerFunc`)

The dispatch table maps an action-type string to the ordered list of
handlers registered for it.  Handlers are identified by a number (their
JS object identity); `hbeh` gives each handler's behaviour as a pure
state transformer.  `reducerRun` embeds the body of `reducerFunc`:
default the state when it is `undefined`, return it unchanged unless the
message carries a truthy type with registered handlers, else fold the
handler list left to right. -/

def lookupHandlers (table : List (String × List Nat)) (t : String) : Option (List Nat) :=
  (table.find? (fun e => e.1 == t)).map (fun e => e.2)

def reducerRun (init : JVal) (table : List (String × List Nat))
    (hbeh : Nat → JVal → Option Msg → JVal) (state : JVal) (action : Option Msg) : JVal :=
  let st := match state with
    | .jundefined => init
    | s => s
  match action with
  | none => st
  | some a =>
    match a.mtype with
    | none => st
    | some t =>
      if t == "" then st
      else
        match lookupHandlers table t with
        | none => st
        | some hs => hs.foldl (fun s hid => hbeh hid s action) st

/-! ## Building a reducer (index.js lines 52-85, `reducer`)

The builder walks the action map in insertion order.  A key starting with
the separator is a composite handling key: it is split into the
already-allocated types it names, and the handler is registered under
each.  Any other key is a direct action key: a fresh type is allocated,
assigned to the handler object's `.type` property (mutating the
caller-supplied function: the `heap` maps handler identity to its current
`.type`), the handler is exposed as a named property of the reducer, and
registered under the new type. -/

/-- `key[0] === '|'`. -/
def isCompositeKey (key : String) : Bool :=
  match key.data with
  | '|' :: _ => true
  | _ => false

/-- Splitting a composite key on `'|'` exactly as JS
`String.prototype.split` with a one-character separator does. -/
def splitBarAux : List Char → List (List Char)
  | [] => [[]]
  | c :: rest =>
    let gs := splitBarAux rest
    if c = '|' then [] :: gs
    else
      match gs with
      | [] => [[c]]
      | g :: gs' => (c :: g) :: gs'

/-- `key.split('|').filter(key => !!key).map(key => '|' + key)`. -/
def splitTypes (s : String) : List String :=
  ((splitBarAux s.data).filter (fun g => !g.isEmpty)).map (fun g => "|" ++ String.mk g)

/-- `const list = actionHandlers[name] || (actionHandlers[name] = []);
list.push(actionHandler)`. -/
def addHandler : List (String × List Nat) → String → Nat → List (String × List Nat)
  | [], t, hid => [(t, [hid])]
  | (u, hs) :: rest, t, hid =>
    if u == t then (u, hs ++ [hid]) :: rest else (u, hs) :: addHandler rest t hid

/-- JS property assignment on a plain string-keyed record. -/
def setProp {P : Type} : List (String × P) → String → P → List (String × P)
  | [], key, v => [(key, v)]
  | (k, w) :: rest, key, v =>
    if k == key then (k, v) :: rest else (k, w) :: setProp rest key v

def propLookup {P : Type} (ps : List (String × P)) (key : String) : Option P :=
  (ps.find? (fun e => e.1 == key)).map (fun e => e.2)

structure BuildOut where
  table : List (String × List Nat)
  props : List (String × Nat)
  reg : Registry
  heap : Nat → Option String

def buildStep (ns : String) :
    List (String × Nat) → List (String × List Nat) → List (String × Nat) →
    Registry → (Nat → Option String) → Except ActError BuildOut
  | [], table, props, reg, heap => .ok ⟨table, props, reg, heap⟩
  | (key, hid) :: rest, table, props, reg, heap =>
    if isCompositeKey key then
      buildStep ns rest ((splitTypes key).foldl (fun t ty => addHandler t ty hid) table)
        props reg heap
    else
      match createActionType ns key reg with
      | (.error e, _) => .error e
      | (.ok name, reg2) =>
        buildStep ns rest (addHandler table name hid) (setProp props key hid) reg2
          (fun i => if i = hid then some name else heap i)

def buildReducer (ns : String) (entries : List (String × Nat)) (reg : Registry)
    (heap : Nat → Option String) : Except ActError BuildOut :=
  buildStep ns entries [] [] reg heap

/-- C3 — a built reducer returns its input state unchanged when the
message is absent, has no type, or has a type with no registered
handlers; and a reducer built from an empty action map, called with no
arguments (state and message both `undefined`), returns exactly the
initial state. -/
theorem reducer_identity_on_miss (init : JVal) (table : List (String × List Nat))
    (hbeh : Nat → JVal → Option Msg → JVal) (s : JVal) (hs : s ≠ JVal.jundefined) :
    (reducerRun init table hbeh s none = s) ∧
    (∀ a : Msg, a.mtype = none → reducerRun init table hbeh s (some a) = s) ∧
    (∀ (a : Msg) (t : String), a.mtype = some t → lookupHandlers table t = none →
      reducerRun init table hbeh s (some a) = s) ∧
    (∀ (ns : String) (reg : Registry) (heap : Nat → Option String),
      buildReducer ns [] reg heap = Except.ok ⟨[], [], reg, heap⟩) ∧
    (reducerRun init [] hbeh JVal.jundefined none = init) := by
  have hst : (match s with | .jundefined => init | s' => s') = s := by
    cases s with
    | jundefined => exact absurd rfl hs
    | jnull => rfl
    | jbool b => rfl
    | jnum n => rfl
    | jstr s' => rfl
    | jobj fs => rfl
  refine ⟨?_, ?_, ?_, ?_, ?_⟩
  · simp only [reducerRun, hst]
  · intro a ha
    simp only [reducerRun, hst, ha]
  · intro a t ha hl
    rcases ht : (t == "") with _ | _
    · simp only [reducerRun, hst, ha, ht, Bool.false_eq_true, if_false, hl]
    · simp only [reducerRun, hst, ha, ht, if_true]
  · intro ns reg heap
    rfl
  · rfl

/-- Witness for C3 at a concrete input: a reducer over one registered
type returns the state unchanged for a message of a different type, for
a message with no type, and for an absent message; the empty build
returns the initial state. -/
theorem reducer_identity_on_miss_witness :
    JVal.jnum 5 ≠ JVal.jundefined ∧
    (reducerRun (JVal.jnum 0) [("|a:b", [0])] (fun _ s _ => s) (JVal.jnum 5) none =
      JVal.jnum 5) ∧
    (∀ a : Msg, a.mtype = none →
      reducerRun (JVal.jnum 0) [("|a:b", [0])] (fun _ s _ => s) (JVal.jnum 5) (some a) =
        JVal.jnum 5) ∧
    (∀ (a : Msg) (t : String), a.mtype = some t →
      lookupHandlers [("|a:b", [0])] t = none →
      reducerRun (JVal.jnum 0) [("|a:b", [0])] (fun _ s _ => s) (JVal.jnum 5) (some a) =
        JVal.jnum 5) ∧
    (∀ (ns : String) (reg : Registry) (heap : Nat → Option String),
      buildReducer ns [] reg heap = Except.ok ⟨[], [], reg, heap⟩) ∧
    (reducerRun (JVal.jnum 0) [] (fun _ s _ => s) JVal.jundefined none = JVal.jnum 0) :=
  ⟨by decide,
    reducer_identity_on_miss (JVal.jnum 0) [("|a:b", [0])] (fun _ s _ => s)
      (JVal.jnum 5) (by decide)⟩

theorem find_setTick_other (l : List (String × Nat)) (p q : String) (n : Nat)
    (h : p ≠ q) :
    (setTick l p n).find? (fun e => e.1 == q) = l.find? (fun e => e.1 == q) := by
  induction l with
  | nil =>
    have : (p == q) = false := by simpa using h
    simp [setTick, this]
  | cons hd tl ih =>
    obtain ⟨a, b⟩ := hd
    by_cases ha : a = p
    · subst ha
      have : (a == q) = false := by simpa using h
      simp [setTick, this]
    · have ha' : (a == p) = false := by simpa using ha
      by_cases haq : a = q
      · subst haq
        simp [setTick, ha']
      · have haq' : (a == q) = false := by simpa using haq
        simp [setTick, ha', haq', ih]

theorem lookupTick_setTick_other (ticks : List (String × Nat)) (issued issued2 : List String)
    (p q : String) (n : Nat) (h : p ≠ q) :
    lookupTick (Registry.mk (setTick ticks p n) issued2) q =
      lookupTick (Registry.mk ticks issued) q := by
  unfold lookupTick
  rw [find_setTick_other ticks p q n h]

theorem string_append_left_cancel (s t u : String) (h : s ++ t = s ++ u) : t = u := by
  have hd := congrArg String.data h
  rw [String.data_append, String.data_append] at hd
  exact String.ext (List.append_cancel_left hd)

theorem valid_key_not_composite (key : String) (hk : validKey key = true) :
    isCompositeKey key = false := by
  unfold validKey at hk
  unfold isCompositeKey
  match hdata : key.data with
  | [] =>
    have : key = "" := String.ext (by simp [hdata])
    subst this
    simp at hk
  | c :: rest =>
    by_cases hc : c = '|'
    · subst hc
      have : key.data.any keyBadChar = true := by
        rw [hdata]
        simp [keyBadChar]
      rw [this] at hk
      simp at hk
    · simp [hc]

theorem buildStep_direct_cons (ns key : String) (hid : Nat)
    (rest : List (String × Nat)) (table : List (String × List Nat))
    (props : List (String × Nat)) (reg : Registry) (heap : Nat → Option String)
    (hcomp : isCompositeKey key = false) (name : String) (reg2 : Registry)
    (hcat : createActionType ns key reg = (Except.ok name, reg2)) :
    buildStep ns ((key, hid) :: rest) table props reg heap =
      buildStep ns rest (addHandler table name hid) (setProp props key hid) reg2
        (fun i => if i = hid then some name else heap i) := by
  simp only [buildStep, hcomp, Bool.false_eq_true, if_false, hcat]

theorem funupd_self {α : Type} (f : Nat → α) (i : Nat) (v : α) :
    (fun j => if j = i then v else f j) i = v := by
  simp

/-- C10 — building a reducer assigns the freshly allocated action type to
the `.type` property of the caller-supplied handler object: after one
build over `{key: h}` the handler's `.type` is the allocated type; after
a second build reusing the same handler object its `.type` is the type
allocated second (`...#2`) and the first type is no longer retrievable
from it; likewise, supplying the same handler object under two direct
keys of one action map leaves its `.type` equal to the type allocated for
the later key, not the earlier one. -/
theorem handler_type_mutated (ns key : String) (hid : Nat) (reg : Registry)
    (heap : Nat → Option String) (hns : validNs ns = true) (hk : validKey key = true)
    (h0 : lookupTick reg (ns ++ ":" ++ key) = 0) :
    (∃ out1 : BuildOut, buildReducer ns [(key, hid)] reg heap = Except.ok out1 ∧
      out1.heap hid = some ("|" ++ (ns ++ ":" ++ key)) ∧
      ∃ out2 : BuildOut, buildReducer ns [(key, hid)] out1.reg out1.heap = Except.ok out2 ∧
        out2.heap hid = some (("|" ++ (ns ++ ":" ++ key)) ++ ("#" ++ toString 2)) ∧
        out2.heap hid ≠ some ("|" ++ (ns ++ ":" ++ key))) ∧
    (∀ key2 : String, validKey key2 = true → key2 ≠ key →
      lookupTick reg (ns ++ ":" ++ key2) = 0 →
      ∃ out : BuildOut, buildReducer ns [(key, hid), (key2, hid)] reg heap = Except.ok out ∧
        out.heap hid = some ("|" ++ (ns ++ ":" ++ key2)) ∧
        out.heap hid ≠ some ("|" ++ (ns ++ ":" ++ key))) := by
  have hcomp := valid_key_not_composite key hk
  have hcat1 := createActionType_valid ns key reg hns hk
  rw [h0] at hcat1
  simp only [Nat.zero_add, beq_self_eq_true, if_true, String.append_empty] at hcat1
  have hb1 : buildReducer ns [(key, hid)] reg heap = Except.ok
      ⟨addHandler [] ("|" ++ (ns ++ ":" ++ key)) hid, setProp [] key hid,
       Registry.mk (setTick reg.ticks (ns ++ ":" ++ key) 1)
         (reg.issued ++ ["|" ++ (ns ++ ":" ++ key)]),
       fun i => if i = hid then some ("|" ++ (ns ++ ":" ++ key)) else heap i⟩ := by
    unfold buildReducer
    rw [buildStep_direct_cons ns key hid [] [] [] reg heap hcomp _ _ hcat1]
    rfl
  constructor
  · have h1 : lookupTick (Registry.mk
        (setTick reg.ticks (ns ++ ":" ++ key) 1)
        (reg.issued ++ ["|" ++ (ns ++ ":" ++ key)])) (ns ++ ":" ++ key) = 1 :=
      lookupTick_after_set reg.ticks _ _ _
    have hcat2 := createActionType_valid ns key
      (Registry.mk (setTick reg.ticks (ns ++ ":" ++ key) 1)
        (reg.issued ++ ["|" ++ (ns ++ ":" ++ key)])) hns hk
    rw [h1] at hcat2
    have hbb : (1 + 1 == 1) = false := by simp
    rw [hbb] at hcat2
    simp only [Bool.false_eq_true, if_false] at hcat2
    refine ⟨_, hb1, by simp, ?_⟩
    have hb2 : buildReducer ns [(key, hid)]
        (Registry.mk (setTick reg.ticks (ns ++ ":" ++ key) 1)
          (reg.issued ++ ["|" ++ (ns ++ ":" ++ key)]))
        (fun i => if i = hid then some ("|" ++ (ns ++ ":" ++ key)) else heap i) =
        Except.ok
          ⟨addHandler [] ("|" ++ (ns ++ ":" ++ key) ++ ("#" ++ toString (1 + 1))) hid,
           setProp [] key hid,
           Registry.mk
             (setTick (setTick reg.ticks (ns ++ ":" ++ key) 1) (ns ++ ":" ++ key) (1 + 1))
             ((reg.issued ++ ["|" ++ (ns ++ ":" ++ key)]) ++
               ["|" ++ (ns ++ ":" ++ key) ++ ("#" ++ toString (1 + 1))]),
           fun i => if i = hid
             then some ("|" ++ (ns ++ ":" ++ key) ++ ("#" ++ toString (1 + 1)))
             else (fun j => if j = hid then some ("|" ++ (ns ++ ":" ++ key)) else heap j) i⟩ := by
      unfold buildReducer
      rw [buildStep_direct_cons ns key hid [] [] [] _ _ hcomp _ _ hcat2]
      rfl
    refine ⟨_, hb2, by simp, ?_⟩
    show (fun i => if i = hid
        then some ("|" ++ (ns ++ ":" ++ key) ++ ("#" ++ toString (1 + 1)))
        else (fun j => if j = hid then some ("|" ++ (ns ++ ":" ++ key)) else heap j) i) hid ≠
      some ("|" ++ (ns ++ ":" ++ key))
    simp only [funupd_self]
    intro hcontra
    have heq : "|" ++ (ns ++ ":" ++ key) ++ ("#" ++ toString (1 + 1)) =
        "|" ++ (ns ++ ":" ++ key) := by simpa using hcontra
    have hlen := congrArg String.length heq
    simp only [String.length_append] at hlen
    have h2 : ("#" : String).length = 1 := rfl
    omega
  · intro key2 hk2 hne h02
    have hcomp2 := valid_key_not_composite key2 hk2
    have hpfx : (ns ++ ":" ++ key) ≠ (ns ++ ":" ++ key2) := by
      intro hcontra
      exact hne (string_append_left_cancel (ns ++ ":") key key2 hcontra).symm
    have h02' : lookupTick (Registry.mk
        (setTick reg.ticks (ns ++ ":" ++ key) 1)
        (reg.issued ++ ["|" ++ (ns ++ ":" ++ key)])) (ns ++ ":" ++ key2) = 0 := by
      rw [lookupTick_setTick_other reg.ticks reg.issued _ _ _ _ hpfx]
      exact h02
    have hcat2 := createActionType_valid ns key2
      (Registry.mk (setTick reg.ticks (ns ++ ":" ++ key) 1)
        (reg.issued ++ ["|" ++ (ns ++ ":" ++ key)])) hns hk2
    rw [h02'] at hcat2
    simp only [Nat.zero_add, beq_self_eq_true, if_true, String.append_empty] at hcat2
    have hb3 : buildReducer ns [(key, hid), (key2, hid)] reg heap = Except.ok
        ⟨addHandler (addHandler [] ("|" ++ (ns ++ ":" ++ key)) hid)
           ("|" ++ (ns ++ ":" ++ key2)) hid,
         setProp (setProp [] key hid) key2 hid,
         Registry.mk
           (setTick (setTick reg.ticks (ns ++ ":" ++ key) 1) (ns ++ ":" ++ key2) 1)
           ((reg.issued ++ ["|" ++ (ns ++ ":" ++ key)]) ++ ["|" ++ (ns ++ ":" ++ key2)]),
         fun i => if i = hid then some ("|" ++ (ns ++ ":" ++ key2))
           else (fun j => if j = hid then some ("|" ++ (ns ++ ":" ++ key)) else heap j) i⟩ := by
      unfold buildReducer
      rw [buildStep_direct_cons ns key hid [(key2, hid)] [] [] reg heap hcomp _ _ hcat1]
      rw [buildStep_direct_cons ns key2 hid [] _ _ _ _ hcomp2 _ _ hcat2]
      rfl
    refine ⟨_, hb3, by simp, ?_⟩
    show (fun i => if i = hid then some ("|" ++ (ns ++ ":" ++ key2))
        else (fun j => if j = hid then some ("|" ++ (ns ++ ":" ++ key)) else heap j) i) hid ≠
      some ("|" ++ (ns ++ ":" ++ key))
    simp only [funupd_self]
    intro hcontra
    have heq : "|" ++ (ns ++ ":" ++ key2) = "|" ++ (ns ++ ":" ++ key) := by
      simpa using hcontra
    exact hpfx (string_append_left_cancel "|" _ _ heq).symm

/-- Witness for C10 at a concrete input: handler `7` built twice under
`("app", "go")`, and once under the two keys `"go"`, `"stop"`. -/
theorem handler_type_mutated_witness :
    validNs "app" = true ∧ validKey "go" = true ∧
    lookupTick (Registry.mk [] []) ("app" ++ ":" ++ "go") = 0 ∧
    ((∃ out1 : BuildOut,
        buildReducer "app" [("go", 7)] (Registry.mk [] []) (fun _ => none) =
          Except.ok out1 ∧
        out1.heap 7 = some ("|" ++ ("app" ++ ":" ++ "go")) ∧
        ∃ out2 : BuildOut,
          buildReducer "app" [("go", 7)] out1.reg out1.heap = Except.ok out2 ∧
          out2.heap 7 = some (("|" ++ ("app" ++ ":" ++ "go")) ++ ("#" ++ toString 2)) ∧
          out2.heap 7 ≠ some ("|" ++ ("app" ++ ":" ++ "go"))) ∧
     (∀ key2 : String, validKey key2 = true → key2 ≠ "go" →
       lookupTick (Registry.mk [] []) ("app" ++ ":" ++ key2) = 0 →
       ∃ out : BuildOut,
         buildReducer "app" [("go", 7), (key2, 7)] (Registry.mk [] []) (fun _ => none) =
           Except.ok out ∧
         out.heap 7 = some ("|" ++ ("app" ++ ":" ++ key2)) ∧
         out.heap 7 ≠ some ("|" ++ ("app" ++ ":" ++ "go")))) :=
  ⟨by decide, by decide, by decide,
    handler_type_mutated "app" "go" 7 (Registry.mk [] []) (fun _ => none)
      (by decide) (by decide) (by decide)⟩

/-! ## Composition engine (index.js lines 181-200 `combine`, 246-252 `nest`,
and the identical dispatch bodies of `ActionizeBuild.combine`/`nest`)

The combined reducer iterates the reducer map's keys in insertion order,
picks each child's sub-state, runs the child, flags an update when the
child's result differs from its sub-state (JS `!==`, modelled as
inequality in the state type), and collects every result.  `join` is
applied only when the flag is set, otherwise the incoming state is
returned as is.  The scan (flag and collected values) is its own
definition so that "`join` is never invoked" is expressible. -/

def combineScan {V : Type} [DecidableEq V] (keys : List String)
    (reducers : String → V → Option Msg → V) (pick : V → String → V)
    (state : V) (action : Option Msg) : Bool × List (String × V) :=
  keys.foldl (fun acc key =>
    let subState := pick state key
    let newState := reducers key subState action
    (acc.1 || decide (subState ≠ newState), acc.2 ++ [(key, newState)]))
    (false, [])

def combineRun {V : Type} [DecidableEq V] (keys : List String)
    (reducers : String → V → Option Msg → V) (pick : V → String → V)
    (join : V → List (String × V) → V) (state : V) (action : Option Msg) : V :=
  let scan := combineScan keys reducers pick state action
  if scan.1 then join state scan.2 else state

/-- `nest`: run the parent's transition first, then the combination over
the parent's result (index.js 246-252). -/
def nestRun {V : Type} [DecidableEq V] (parent : V → Option Msg → V)
    (keys : List String) (reducers : String → V → Option Msg → V)
    (pick : V → String → V) (join : V → List (String × V) → V)
    (state : V) (action : Option Msg) : V :=
  let parentState := parent state action
  combineRun keys reducers pick join parentState action

/-- `(state, key) => state && state[key]` — the "plain" pick policy. -/
def pickPlain (state : JVal) (key : String) : JVal :=
  if truthy state then getField state key else state

/-- `(state, values) => Object.assign({}, state, values)` — the "plain"
join policy of `nest.plain` (index.js 262-267). -/
def joinNestPlain (state : JVal) (values : List (String × JVal)) : JVal :=
  .jobj (values.foldl (fun fs kv => fs.set kv.1 kv.2) (objFields state))

def nestPlain (parent : JVal → Option Msg → JVal) (keys : List String)
    (reducers : String → JVal → Option Msg → JVal)
    (state : JVal) (action : Option Msg) : JVal :=
  nestRun parent keys reducers pickPlain joinNestPlain state action

/-- Trivial handler behaviour for reducers with no registered handlers. -/
def noBeh : Nat → JVal → Option Msg → JVal := fun _ s _ => s

theorem combineScan_fold {V : Type} [DecidableEq V] (keys : List String)
    (reducers : String → V → Option Msg → V) (pick : V → String → V)
    (state : V) (action : Option Msg) (b : Bool) (l : List (String × V)) :
    keys.foldl (fun acc key =>
        let subState := pick state key
        let newState := reducers key subState action
        (acc.1 || decide (subState ≠ newState), acc.2 ++ [(key, newState)])) (b, l) =
      (b || keys.any (fun k => decide (pick state k ≠ reducers k (pick state k) action)),
       l ++ keys.map (fun k => (k, reducers k (pick state k) action))) := by
  induction keys generalizing b l with
  | nil => simp
  | cons k ks ih =>
    simp only [List.foldl_cons, List.any_cons, List.map_cons, ih, Bool.or_assoc,
      List.append_assoc, List.singleton_append]

theorem combineScan_spec {V : Type} [DecidableEq V] (keys : List String)
    (reducers : String → V → Option Msg → V) (pick : V → String → V)
    (state : V) (action : Option Msg) :
    combineScan keys reducers pick state action =
      (keys.any (fun k => decide (pick state k ≠ reducers k (pick state k) action)),
       keys.map (fun k => (k, reducers k (pick state k) action))) := by
  unfold combineScan
  rw [combineScan_fold]
  simp

/-- C2 — change-propagation contract of `combine`: when every child
returns its picked sub-state unchanged, the combined reducer returns the
given state itself and `join` is never invoked (the scan flag is false
and the result does not depend on the join function); when at least one
child returns a different value, the result is `join(state, values)`
with `values` holding every child's result keyed in order. -/
theorem combine_change_propagation {V : Type} [DecidableEq V] (keys : List String)
    (reducers : String → V → Option Msg → V) (pick : V → String → V)
    (join : V → List (String × V) → V) (state : V) (action : Option Msg) :
    ((∀ k ∈ keys, reducers k (pick state k) action = pick state k) →
      (combineScan keys reducers pick state action).1 = false ∧
      ∀ join2 : V → List (String × V) → V,
        combineRun keys reducers pick join2 state action = state) ∧
    ((∃ k ∈ keys, reducers k (pick state k) action ≠ pick state k) →
      combineRun keys reducers pick join state action =
        join state (keys.map (fun k => (k, reducers k (pick state k) action)))) := by
  constructor
  · intro hall
    have hany : keys.any
        (fun k => decide (pick state k ≠ reducers k (pick state k) action)) = false := by
      rw [List.any_eq_false]
      intro k hk
      simp [hall k hk]
    constructor
    · rw [combineScan_spec, hany]
    · intro join2
      unfold combineRun
      rw [combineScan_spec, hany]
      simp
  · intro hex
    have hany : keys.any
        (fun k => decide (pick state k ≠ reducers k (pick state k) action)) = true := by
      rw [List.any_eq_true]
      obtain ⟨k, hk, hne⟩ := hex
      exact ⟨k, hk, by simpa using fun h => hne h.symm⟩
    unfold combineRun
    rw [combineScan_spec, hany]
    simp

/-- Witness for C2 over `V = Nat` with two children: identity children
leave the state untouched for every join; a changing child routes the
result through `join`. -/
theorem combine_change_propagation_witness :
    ((∀ k ∈ ["a", "b"], (fun (_ : String) (v : Nat) (_ : Option Msg) => v) k
        ((fun (v : Nat) (_ : String) => v) 3 k) none =
      (fun (v : Nat) (_ : String) => v) 3 k) →
      (combineScan ["a", "b"] (fun _ v _ => v) (fun v _ => v) 3 none).1 = false ∧
      ∀ join2 : Nat → List (String × Nat) → Nat,
        combineRun ["a", "b"] (fun _ v _ => v) (fun v _ => v) join2 3 none = 3) ∧
    ((∃ k ∈ ["a", "b"], (fun (_ : String) (v : Nat) (_ : Option Msg) => v) k
        ((fun (v : Nat) (_ : String) => v) 3 k) none ≠
      (fun (v : Nat) (_ : String) => v) 3 k) →
      combineRun ["a", "b"] (fun _ v _ => v) (fun v _ => v)
          (fun s _ => s + 1) 3 none =
        (fun (s : Nat) (_ : List (String × Nat)) => s + 1) 3
          (["a", "b"].map (fun k => (k, (fun (_ : String) (v : Nat) (_ : Option Msg) => v) k
            ((fun (v : Nat) (_ : String) => v) 3 k) none)))) :=
  combine_change_propagation ["a", "b"] (fun _ v _ => v) (fun v _ => v)
    (fun s _ => s + 1) 3 none

/-- C8 — `nest(parent, reducers, pick, join)` always equals the
combination reducer applied to the parent's transition result; and the
concrete scenario: nesting a parent with initial state `{p: 1}` over
`{c: child}` where the child's initial state is `{c: 2}`, called with no
arguments under the plain policy, yields `{p: 1, c: {c: 2}}`. -/
theorem nest_parent_first :
    (∀ (V : Type) (inst : DecidableEq V) (parent : V → Option Msg → V)
        (keys : List String) (reducers : String → V → Option Msg → V)
        (pick : V → String → V) (join : V → List (String × V) → V)
        (state : V) (action : Option Msg),
      @nestRun V inst parent keys reducers pick join state action =
        @combineRun V inst keys reducers pick join (parent state action) action) ∧
    nestPlain
        (fun s a => reducerRun (JVal.jobj (.cons "p" (.jnum 1) .nil)) [] noBeh s a)
        ["c"]
        (fun _ => fun s a => reducerRun (JVal.jobj (.cons "c" (.jnum 2) .nil)) [] noBeh s a)
        JVal.jundefined none =
      JVal.jobj (.cons "p" (.jnum 1)
        (.cons "c" (JVal.jobj (.cons "c" (.jnum 2) .nil)) .nil)) := by
  constructor
  · intro V inst parent keys reducers pick join state action
    rfl
  · decide

/-! ## Named action properties of composed reducers
(`ActionizeBuild.combine` lines 448-451, `ActionizeBuild.nest` 505-521)

`ActionizeBuild.combine` copies every entry of the reducer map onto the
combined function as a named property; `ActionizeBuild.nest` copies the
nested combination's properties and then the parent's own function
properties that carry a truthy `.type`.  Property values are abstract
(`P`); `isTypedFn` models `typeof v === 'function' && v.type`. -/

def assignProps {P : Type} (src : List (String × P)) (dst : List (String × P)) :
    List (String × P) :=
  src.foldl (fun acc kv => setProp acc kv.1 kv.2) dst

def combineProps {P : Type} (rs : List (String × P)) : List (String × P) :=
  assignProps rs []

def nestProps {P : Type} (isTypedFn : P → Bool) (parentProps : List (String × P))
    (nested : List (String × P)) : List (String × P) :=
  assignProps (parentProps.filter (fun kv => isTypedFn kv.2)) (assignProps nested [])

theorem propLookup_setProp_self {P : Type} (ps : List (String × P)) (k : String) (v : P) :
    propLookup (setProp ps k v) k = some v := by
  induction ps with
  | nil => simp [setProp, propLookup]
  | cons hd tl ih =>
    obtain ⟨k0, v0⟩ := hd
    by_cases h : k0 = k
    · subst h
      simp [setProp, propLookup]
    · have h' : (k0 == k) = false := by simpa using h
      simp only [setProp, h', if_false, propLookup, List.find?, Bool.false_eq_true]
      exact ih

theorem propLookup_setProp_other {P : Type} (ps : List (String × P)) (k k2 : String)
    (v : P) (h : k ≠ k2) :
    propLookup (setProp ps k v) k2 = propLookup ps k2 := by
  induction ps with
  | nil =>
    have h' : (k == k2) = false := by simpa using h
    simp [setProp, propLookup, h']
  | cons hd tl ih =>
    obtain ⟨k0, v0⟩ := hd
    by_cases h0 : k0 = k
    · subst h0
      have h' : (k0 == k2) = false := by simpa using h
      simp [setProp, propLookup, h']
    · have h0' : (k0 == k) = false := by simpa using h0
      by_cases h2 : k0 = k2
      · subst h2
        simp [setProp, propLookup, h0']
      · have h2' : (k0 == k2) = false := by simpa using h2
        simp only [setProp, h0', if_false, propLookup, List.find?, Bool.false_eq_true] at ih ⊢
        rw [h2']
        simpa [propLookup] using ih

theorem propLookup_assignProps_not_mem {P : Type} (src : List (String × P))
    (dst : List (String × P)) (k : String) (h : k ∉ src.map Prod.fst) :
    propLookup (assignProps src dst) k = propLookup dst k := by
  induction src generalizing dst with
  | nil => rfl
  | cons hd tl ih =>
    obtain ⟨k0, v0⟩ := hd
    simp only [List.map_cons, List.mem_cons] at h
    push_neg at h
    unfold assignProps at ih ⊢
    simp only [List.foldl_cons]
    rw [ih _ h.2, propLookup_setProp_other dst k0 k v0 (fun hc => h.1 hc.symm)]

theorem propLookup_assignProps_mem {P : Type} (src : List (String × P))
    (dst : List (String × P)) (k : String) (v : P)
    (hnd : (src.map Prod.fst).Nodup) (hmem : (k, v) ∈ src) :
    propLookup (assignProps src dst) k = some v := by
  induction src generalizing dst with
  | nil => simp at hmem
  | cons hd tl ih =>
    obtain ⟨k0, v0⟩ := hd
    simp only [List.map_cons, List.nodup_cons] at hnd
    rcases List.mem_cons.mp hmem with heq | htl
    · obtain ⟨rfl, rfl⟩ := Prod.mk.inj heq
      unfold assignProps
      simp only [List.foldl_cons]
      have hnot : k ∉ tl.map Prod.fst := hnd.1
      rw [show List.foldl (fun acc kv => setProp acc kv.1 kv.2) (setProp dst k v) tl =
          assignProps tl (setProp dst k v) from rfl]
      rw [propLookup_assignProps_not_mem tl _ k hnot]
      exact propLookup_setProp_self dst k v
    · unfold assignProps
      simp only [List.foldl_cons]
      exact ih _ hnd.2 htl

/-- C9 — a reducer combined by `ActionizeBuild.combine` exposes, under
every key of the reducer map, a named property equal to the original
child reducer; a reducer built by `ActionizeBuild.nest` additionally
exposes each of the parent's `.type`-tagged function properties under its
name, and keeps the combination's child properties for keys the parent
does not override. -/
theorem composed_reducer_exposes_children :
    (∀ (P : Type) (rs : List (String × P)) (k : String) (p : P),
      (rs.map Prod.fst).Nodup → (k, p) ∈ rs →
      propLookup (combineProps rs) k = some p) ∧
    (∀ (P : Type) (isTypedFn : P → Bool) (parentProps nested : List (String × P))
        (k : String) (p : P),
      ((parentProps.filter (fun kv => isTypedFn kv.2)).map Prod.fst).Nodup →
      (k, p) ∈ parentProps.filter (fun kv => isTypedFn kv.2) →
      propLookup (nestProps isTypedFn parentProps nested) k = some p) ∧
    (∀ (P : Type) (isTypedFn : P → Bool) (parentProps nested : List (String × P))
        (k : String),
      k ∉ (parentProps.filter (fun kv => isTypedFn kv.2)).map Prod.fst →
      propLookup (nestProps isTypedFn parentProps nested) k =
        propLookup (combineProps nested) k) := by
  refine ⟨?_, ?_, ?_⟩
  · intro P rs k p hnd hmem
    exact propLookup_assignProps_mem rs [] k p hnd hmem
  · intro P isTypedFn parentProps nested k p hnd hmem
    exact propLookup_assignProps_mem _ _ k p hnd hmem
  · intro P isTypedFn parentProps nested k hk
    exact propLookup_assignProps_not_mem _ _ k hk

/-- Witness for C9 at concrete inputs over `P = Nat`. -/
theorem composed_reducer_exposes_children_witness :
    propLookup (combineProps [("a", 1), ("b", 2)]) "a" = some 1 ∧
    propLookup (nestProps (fun p => p != 0) [("go", 7), ("x", 0)]
      [("a", 1), ("b", 2)]) "go" = some 7 ∧
    propLookup (nestProps (fun p => p != 0) [("go", 7), ("x", 0)]
      [("a", 1), ("b", 2)]) "b" =
      propLookup (combineProps [("a", (1 : Nat)), ("b", 2)]) "b" :=
  ⟨composed_reducer_exposes_children.1 Nat [("a", 1), ("b", 2)] "a" 1
      (by decide) (by decide),
   composed_reducer_exposes_children.2.1 Nat (fun p => p != 0)
      [("go", 7), ("x", 0)] [("a", 1), ("b", 2)] "go" 7 (by decide) (by decide),
   composed_reducer_exposes_children.2.2 Nat (fun p => p != 0)
      [("go", 7), ("x", 0)] [("a", 1), ("b", 2)] "b" (by decide)⟩

/-! ## The `ActionizeBuild.reducer` action-map walk (lines 331-353)

The registry-backed builder above embeds the module-level `reducer`;
`ActionizeBuild.reducer` differs in two ways relevant to the claims: it
only processes entries whose value is a function (and whose key is
non-empty), silently skipping anything else, and it allocates types with
the counterless static `Actionize.buildActionType` (lines 1034-1037),
which validates the key and returns `'|' + name + ':' + key`.  Values
are `BVal` (a function with an identity, or a non-function). -/

inductive BVal where
  | fnV (hid : Nat)
  | nonFn
  deriving DecidableEq, Repr

/-- `Actionize.buildActionType`: `validateActionKey(key)` then
`'|' + namespace + ':' + key`. -/
def buildActionType (ns key : String) : Except ActError String :=
  if key.data.any keyBadChar then Except.error ActError.invalidKey
  else Except.ok ("|" ++ ns ++ ":" ++ key)

structure ABOut where
  table : List (String × List Nat)
  props : List (String × Nat)
  deriving DecidableEq, Repr

def buildABStep (ns : String) :
    List (String × BVal) → List (String × List Nat) → List (String × Nat) →
    Except ActError ABOut
  | [], table, props => .ok ⟨table, props⟩
  | (key, v) :: rest, table, props =>
    match v with
    | .nonFn => buildABStep ns rest table props
    | .fnV hid =>
      if key == "" then buildABStep ns rest table props
      else if isCompositeKey key then
        buildABStep ns rest
          ((splitTypes key).foldl (fun t ty => addHandler t ty hid) table) props
      else
        match buildActionType ns key with
        | .error e => .error e
        | .ok name => buildABStep ns rest (addHandler table name hid) (setProp props key hid)

def buildAB (ns : String) (entries : List (String × BVal)) : Except ActError ABOut :=
  buildABStep ns entries [] []

theorem buildABStep_skip (ns k : String) (xs ys : List (String × BVal))
    (table : List (String × List Nat)) (props : List (String × Nat)) :
    buildABStep ns (xs ++ (k, BVal.nonFn) :: ys) table props =
      buildABStep ns (xs ++ ys) table props := by
  induction xs generalizing table props with
  | nil =>
    simp only [List.nil_append, buildABStep]
  | cons hd tl ih =>
    obtain ⟨k0, v0⟩ := hd
    cases v0 with
    | nonFn =>
      simp only [List.cons_append, buildABStep]
      exact ih _ _
    | fnV hid =>
      simp only [List.cons_append, buildABStep]
      split
      · exact ih _ _
      · split
        · exact ih _ _
        · split
          · rfl
          · exact ih _ _

/-- C7 — `ActionizeBuild.reducer` silently ignores a non-function value
under a direct key: the build over an action map containing such an entry
produces exactly the same dispatch table and named properties (and, the
type allocator being the counterless static one, touches no other state)
as the build over the map without the entry, so no type is allocated for
it, nothing is registered, and dispatch behaves as if it were absent. -/
theorem non_function_entry_ignored (ns k : String) (xs ys : List (String × BVal))
    (hk : isCompositeKey k = false) :
    buildAB ns (xs ++ (k, BVal.nonFn) :: ys) = buildAB ns (xs ++ ys) := by
  unfold buildAB
  exact buildABStep_skip ns k xs ys [] []

/-- Witness for C7 at a concrete input: a `meta` entry holding a
non-function between two handler entries changes nothing. -/
theorem non_function_entry_ignored_witness :
    isCompositeKey "meta" = false ∧
    buildAB "app" [("a", BVal.fnV 1), ("meta", BVal.nonFn), ("b", BVal.fnV 2)] =
      buildAB "app" [("a", BVal.fnV 1), ("b", BVal.fnV 2)] :=
  ⟨by decide,
    non_function_entry_ignored "app" "meta" [("a", BVal.fnV 1)] [("b", BVal.fnV 2)]
      (by decide)⟩

/-! ## The `handle` helper (index.js lines 135-153)

`handle(...items)` resolves each item to a string: a string item passes
through; a truthy non-string item contributes its truthy `.type` if any,
else the concatenated keys of its `_actionizeHandlers` dispatch table if
present; anything else resolves to nothing.  Unresolved and empty results
are filtered out and the rest concatenated with no delimiter. -/

inductive HItem where
  | str (s : String)
  | objItem (tag : Option String) (handlerKeys : Option (List String))
  | falsyItem
  deriving DecidableEq, Repr

/-- `[].join('')`. -/
def joinAll (l : List String) : String :=
  l.foldl (· ++ ·) ""

def resolveItem : HItem → Option String
  | .str s => some s
  | .falsyItem => none
  | .objItem tag hk =>
    match tag with
    | some t => if t == "" then hk.map joinAll else some t
    | none => hk.map joinAll

def handleRun (items : List HItem) : String :=
  joinAll ((items.filterMap resolveItem).filter (fun s => !(s == "")))

/-- A well-formed Action Type string: the separator, then a non-empty
body free of separators (guaranteed for allocated types because namespace
and key reject `'|'` and the body always contains `':'`). -/
def isWellFormedType (s : String) : Bool :=
  match s.data with
  | c :: body => c = '|' && !body.isEmpty && !body.contains '|'
  | [] => false

theorem wellformed_parts (t : String) (ht : isWellFormedType t = true) :
    t.data = '|' :: t.data.tail ∧ t.data.tail ≠ [] ∧ ∀ c ∈ t.data.tail, c ≠ '|' := by
  unfold isWellFormedType at ht
  cases hd : t.data with
  | nil => rw [hd] at ht; simp at ht
  | cons c body =>
    rw [hd] at ht
    simp only [Bool.and_eq_true, decide_eq_true_eq] at ht
    obtain ⟨⟨hc, hne⟩, hnb⟩ := ht
    subst hc
    refine ⟨by simp, ?_, ?_⟩
    · simp only [List.tail_cons]
      intro hcontra
      rw [hcontra] at hne
      simp at hne
    · simp only [List.tail_cons]
      intro x hx hxc
      subst hxc
      simp at hnb
      exact hnb hx

theorem splitBarAux_cons_shape (cs : List Char) :
    ∃ g gs, splitBarAux cs = g :: gs := by
  cases cs with
  | nil => exact ⟨[], [], rfl⟩
  | cons c rest =>
    by_cases hc : c = '|'
    · exact ⟨[], splitBarAux rest, by simp [splitBarAux, hc]⟩
    · cases h : splitBarAux rest with
      | nil => exact ⟨[c], [], by simp [splitBarAux, hc, h]⟩
      | cons g gs => exact ⟨c :: g, gs, by simp [splitBarAux, hc, h]⟩

theorem splitBarAux_append_noBar (body : List Char) (hb : ∀ c ∈ body, c ≠ '|') :
    ∀ (cs : List Char) (g : List Char) (gs : List (List Char)),
      splitBarAux cs = g :: gs → splitBarAux (body ++ cs) = (body ++ g) :: gs := by
  induction body with
  | nil =>
    intro cs g gs h
    simpa using h
  | cons c bs ih =>
    intro cs g gs h
    have hc : c ≠ '|' := hb c (by simp)
    have ih' := ih (fun x hx => hb x (by simp [hx])) cs g gs h
    simp [splitBarAux, ih', hc]

theorem foldl_append_data (ts : List String) (a : String) :
    (ts.foldl (· ++ ·) a).data = a.data ++ (ts.map String.data).flatten := by
  induction ts generalizing a with
  | nil => simp
  | cons t ts ih => simp [ih, String.data_append]

theorem joinAll_data (ts : List String) :
    (joinAll ts).data = (ts.map String.data).flatten := by
  unfold joinAll
  rw [foldl_append_data]
  rfl

theorem splitBar_flatten (ts : List String)
    (h : ∀ t ∈ ts, isWellFormedType t = true) :
    splitBarAux ((ts.map String.data).flatten) = [] :: ts.map (fun t => t.data.tail) := by
  induction ts with
  | nil => rfl
  | cons t ts ih =>
    obtain ⟨hdata, hne, hnb⟩ := wellformed_parts t (h t (by simp))
    have ih' := ih (fun u hu => h u (by simp [hu]))
    have hstep := splitBarAux_append_noBar t.data.tail hnb
      ((ts.map String.data).flatten) [] (ts.map (fun u => u.data.tail)) ih'
    calc splitBarAux (((t :: ts).map String.data).flatten)
        = splitBarAux ('|' :: (t.data.tail ++ (ts.map String.data).flatten)) := by
          rw [List.map_cons, List.flatten_cons]
          conv_lhs => rw [hdata]
          rfl
      _ = [] :: splitBarAux (t.data.tail ++ (ts.map String.data).flatten) := by
          simp [splitBarAux]
      _ = [] :: (t.data.tail ++ []) :: ts.map (fun u => u.data.tail) := by rw [hstep]
      _ = [] :: (t :: ts).map (fun u => u.data.tail) := by simp

theorem splitTypes_joinAll (ts : List String)
    (h : ∀ t ∈ ts, isWellFormedType t = true) :
    splitTypes (joinAll ts) = ts := by
  unfold splitTypes
  rw [joinAll_data, splitBar_flatten ts h]
  have hfilter : (([] :: ts.map (fun t => t.data.tail)).filter
      (fun g => !g.isEmpty)) = ts.map (fun t => t.data.tail) := by
    simp only [List.filter_cons]
    rw [if_neg (by simp)]
    rw [List.filter_eq_self]
    intro g hg
    obtain ⟨t, ht, rfl⟩ := List.mem_map.mp hg
    obtain ⟨_, hne, _⟩ := wellformed_parts t (h t ht)
    simpa [List.isEmpty_iff] using hne
  rw [hfilter, List.map_map]
  have : ∀ t ∈ ts, ("|" ++ String.mk t.data.tail) = t := by
    intro t ht
    obtain ⟨hdata, _, _⟩ := wellformed_parts t (h t ht)
    apply String.ext
    rw [String.data_append]
    conv_rhs => rw [hdata]
    rfl
  conv_rhs => rw [show ts = ts.map id from (List.map_id ts).symm]
  exact List.map_congr_left (fun t ht => this t ht)

theorem joinAll_flatten (tss : List (List String)) :
    joinAll (tss.map joinAll) = joinAll tss.flatten := by
  apply String.ext
  rw [joinAll_data, joinAll_data]
  induction tss with
  | nil => rfl
  | cons ts tss ih =>
    simp only [List.map_cons, List.flatten_cons, List.map_append, List.flatten_append,
      joinAll_data, ih]

/-- C4 — `handle` returns the concatenation, with no added delimiter, of
the strings its arguments resolve to: each kept item contributes a list
of type strings (one for a literal type string or a `.type`-tagged
invoker, a reducer's whole registered-type list, nothing for
unresolvable items), its resolved string being their concatenation; and
splitting the result on the separator the way the reducer builder does
(drop empty segments, re-prefix `'|'`) recovers exactly the flattened
list of all contributed types in order — in particular `handle(x, y)`
splits back to `[x.type, y.type]`, and a two-type reducer contributes
both its types in order. -/
theorem handle_round_trip (items : List HItem) (tss : List (List String))
    (hres : (items.filterMap resolveItem).filter (fun s => !(s == "")) = tss.map joinAll)
    (hvalid : ∀ ts ∈ tss, ∀ t ∈ ts, isWellFormedType t = true) :
    handleRun items = joinAll (tss.map joinAll) ∧
    handleRun items = joinAll tss.flatten ∧
    splitTypes (handleRun items) = tss.flatten := by
  have h1 : handleRun items = joinAll (tss.map joinAll) := by
    unfold handleRun
    rw [hres]
  have h2 : handleRun items = joinAll tss.flatten := by
    rw [h1, joinAll_flatten]
  refine ⟨h1, h2, ?_⟩
  rw [h2]
  refine splitTypes_joinAll tss.flatten (fun t ht => ?_)
  obtain ⟨ts, hts, htm⟩ := List.mem_flatten.mp ht
  exact hvalid ts hts t htm

/-- Witness for C4: a literal type string, a `.type`-tagged invoker, and
a reducer registering two types (resolving to `|h3:foo|h3:bar`) all
round-trip through `handle` and the splitter. -/
theorem handle_round_trip_witness :
    ([HItem.str "|a:b", HItem.objItem (some "|c:d") none,
      HItem.objItem none (some ["|h3:foo", "|h3:bar"])].filterMap resolveItem).filter
        (fun s => !(s == "")) =
      [["|a:b"], ["|c:d"], ["|h3:foo", "|h3:bar"]].map joinAll ∧
    handleRun [HItem.str "|a:b", HItem.objItem (some "|c:d") none,
      HItem.objItem none (some ["|h3:foo", "|h3:bar"])] =
      joinAll ([["|a:b"], ["|c:d"], ["|h3:foo", "|h3:bar"]].map joinAll) ∧
    handleRun [HItem.str "|a:b", HItem.objItem (some "|c:d") none,
      HItem.objItem none (some ["|h3:foo", "|h3:bar"])] =
      joinAll [["|a:b"], ["|c:d"], ["|h3:foo", "|h3:bar"]].flatten ∧
    splitTypes (handleRun [HItem.str "|a:b", HItem.objItem (some "|c:d") none,
      HItem.objItem none (some ["|h3:foo", "|h3:bar"])]) =
      [["|a:b"], ["|c:d"], ["|h3:foo", "|h3:bar"]].flatten :=
  ⟨by decide,
    handle_round_trip
      [HItem.str "|a:b", HItem.objItem (some "|c:d") none,
        HItem.objItem none (some ["|h3:foo", "|h3:bar"])]
      [["|a:b"], ["|c:d"], ["|h3:foo", "|h3:bar"]] (by decide) (by decide)⟩

/-! ## Duplicate-type validator (`Actionize._reserveActionTypes`, lines 993-1022)

A reducer is a function object carrying named properties; each property
is either a function (itself possibly carrying a `.type` tag and further
properties) or a non-function.  The walk is embedded over a mutual
inductive: `FnObj` is a function object with its JS identity (`oid`, the
stand-in for reference identity), its `.type` tag, and its property list
`PList` (function-valued entries keep the object, other entries are
`pplain`).  The validator state carries the registry-scoped reserved list
(`_reducersReserved`) and recorded type set (`_actionTypes`). -/

mutual
inductive FnObj where
  | mk (oid : Nat) (tag : Option String) (props : PList)
  deriving DecidableEq, Repr
inductive PList where
  | pnil
  | pfn (key : String) (g : FnObj) (rest : PList)
  | pplain (key : String) (rest : PList)
  deriving DecidableEq, Repr
end

def FnObj.oid : FnObj → Nat
  | .mk i _ _ => i

def FnObj.tag : FnObj → Option String
  | .mk _ t _ => t

def FnObj.props : FnObj → PList
  | .mk _ _ p => p

/-- `const type = item.type; if (type) ...`: the tag when truthy. -/
def truthyTag : Option String → Option String
  | some t => if t == "" then none else some t
  | none => none

structure VState where
  reserved : List Nat
  types : List String
  deriving DecidableEq, Repr

mutual
def reserveObj (st : VState) : FnObj → Except String VState
  | .mk i _ props =>
    if i ∈ st.reserved then .ok st
    else
      match reserveProps st props with
      | .error e => .error e
      | .ok (st2, flag) =>
        .ok ⟨if flag then st2.reserved ++ [i] else st2.reserved, st2.types⟩
def reserveProps (st : VState) : PList → Except String (VState × Bool)
  | .pnil => .ok (st, false)
  | .pplain _ rest => reserveProps st rest
  | .pfn _ g rest =>
    match truthyTag g.tag with
    | some t =>
      if t ∈ st.types then .error ("Action \"" ++ t ++ "\" is defined twice.")
      else
        match reserveProps ⟨st.reserved, st.types ++ [t]⟩ rest with
        | .error e => .error e
        | .ok (st2, _) => .ok (st2, true)
    | none =>
      match reserveObj st g with
      | .error e => .error e
      | .ok st2 => reserveProps st2 rest
end

/-- The function-valued entries of a property list, in order. -/
def PList.fns : PList → List (String × FnObj)
  | .pnil => []
  | .pfn k g rest => (k, g) :: rest.fns
  | .pplain _ rest => rest.fns

mutual
/-- All type tags the walk of an object can record, in walk order. -/
def collectObj : FnObj → List String
  | .mk _ _ props => collectProps props
def collectProps : PList → List String
  | .pnil => []
  | .pplain _ rest => collectProps rest
  | .pfn _ g rest =>
    (match truthyTag g.tag with
     | some t => [t]
     | none => collectObj g) ++ collectProps rest
end

mutual
/-- The identities of every object the walk visits (the object itself and,
recursively, the untagged function properties it recurses into; tagged
functions are recorded, not visited). -/
def objOids : FnObj → List Nat
  | .mk i _ props => i :: propsOids props
def propsOids : PList → List Nat
  | .pnil => []
  | .pplain _ rest => propsOids rest
  | .pfn _ g rest =>
    (match truthyTag g.tag with
     | some _ => []
     | none => objOids g) ++ propsOids rest
end

mutual
theorem reserveObj_extend : ∀ (st : VState) (f : FnObj) (st2 : VState),
    reserveObj st f = Except.ok st2 →
    (∃ ts, st2.types = st.types ++ ts) ∧ (∃ rs, st2.reserved = st.reserved ++ rs)
  | st, .mk i tag props, st2, h => by
    simp only [reserveObj] at h
    by_cases hi : i ∈ st.reserved
    · rw [if_pos hi] at h
      injection h with h'
      subst h'
      exact ⟨⟨[], by simp⟩, ⟨[], by simp⟩⟩
    · rw [if_neg hi] at h
      cases hps : reserveProps st props with
      | error e => rw [hps] at h; exact absurd h (by simp)
      | ok p =>
        obtain ⟨st3, flag⟩ := p
        rw [hps] at h
        injection h with h'
        subst h'
        obtain ⟨hts, ⟨rs, hrs⟩⟩ := reserveProps_extend st props st3 flag hps
        refine ⟨hts, ⟨if flag then rs ++ [i] else rs, ?_⟩⟩
        cases flag <;> simp [hrs]
theorem reserveProps_extend : ∀ (st : VState) (props : PList) (st2 : VState) (flag : Bool),
    reserveProps st props = Except.ok (st2, flag) →
    (∃ ts, st2.types = st.types ++ ts) ∧ (∃ rs, st2.reserved = st.reserved ++ rs)
  | st, .pnil, st2, flag, h => by
    simp only [reserveProps] at h
    injection h with h'
    obtain ⟨h1, h2⟩ := Prod.mk.inj h'
    subst h1
    exact ⟨⟨[], by simp⟩, ⟨[], by simp⟩⟩
  | st, .pplain k rest, st2, flag, h => by
    simp only [reserveProps] at h
    exact reserveProps_extend st rest st2 flag h
  | st, .pfn k g rest, st2, flag, h => by
    simp only [reserveProps] at h
    cases htag : truthyTag g.tag with
    | some t =>
      simp only [htag] at h
      by_cases hmem : t ∈ st.types
      · rw [if_pos hmem] at h
        exact absurd h (by simp)
      · rw [if_neg hmem] at h
        cases hr : reserveProps ⟨st.reserved, st.types ++ [t]⟩ rest with
        | error e => rw [hr] at h; exact absurd h (by simp)
        | ok p =>
          obtain ⟨st3, fl⟩ := p
          rw [hr] at h
          injection h with h'
          obtain ⟨h1, h2⟩ := Prod.mk.inj h'
          subst h1
          obtain ⟨⟨ts, hts⟩, ⟨rs, hrs⟩⟩ :=
            reserveProps_extend ⟨st.reserved, st.types ++ [t]⟩ rest _ fl hr
          refine ⟨⟨t :: ts, ?_⟩, ⟨rs, hrs⟩⟩
          rw [hts]
          simp
    | none =>
      simp only [htag] at h
      cases ho : reserveObj st g with
      | error e => rw [ho] at h; exact absurd h (by simp)
      | ok st3 =>
        rw [ho] at h
        obtain ⟨⟨ts1, h1⟩, ⟨rs1, h2⟩⟩ := reserveObj_extend st g st3 ho
        obtain ⟨⟨ts2, h3⟩, ⟨rs2, h4⟩⟩ := reserveProps_extend st3 rest st2 flag h
        exact ⟨⟨ts1 ++ ts2, by rw [h3, h1, List.append_assoc]⟩,
               ⟨rs1 ++ rs2, by rw [h4, h2, List.append_assoc]⟩⟩
end

theorem reserveProps_dup : ∀ (props : PList) (st : VState) (k : String) (g : FnObj)
    (t : String), (k, g) ∈ props.fns → truthyTag g.tag = some t → t ∈ st.types →
    ∃ e, reserveProps st props = Except.error e
  | .pnil, st, k, g, t, hmem, ht, hin => by
    simp [PList.fns] at hmem
  | .pplain k0 rest, st, k, g, t, hmem, ht, hin => by
    simp only [PList.fns] at hmem
    obtain ⟨e, he⟩ := reserveProps_dup rest st k g t hmem ht hin
    exact ⟨e, by simp only [reserveProps]; exact he⟩
  | .pfn k0 g0 rest, st, k, g, t, hmem, ht, hin => by
    simp only [PList.fns, List.mem_cons] at hmem
    rcases hmem with heq | htl
    · obtain ⟨rfl, rfl⟩ := Prod.mk.inj heq
      refine ⟨"Action \"" ++ t ++ "\" is defined twice.", ?_⟩
      simp only [reserveProps, ht]
      rw [if_pos hin]
    · cases htag0 : truthyTag g0.tag with
      | some t0 =>
        by_cases hmem0 : t0 ∈ st.types
        · refine ⟨"Action \"" ++ t0 ++ "\" is defined twice.", ?_⟩
          simp only [reserveProps, htag0]
          rw [if_pos hmem0]
        · have hin' : t ∈ st.types ++ [t0] := List.mem_append_left _ hin
          obtain ⟨e, he⟩ :=
            reserveProps_dup rest ⟨st.reserved, st.types ++ [t0]⟩ k g t htl ht hin'
          refine ⟨e, ?_⟩
          simp only [reserveProps, htag0]
          rw [if_neg hmem0, he]
      | none =>
        cases ho : reserveObj st g0 with
        | error e => exact ⟨e, by simp only [reserveProps, htag0, ho]⟩
        | ok st3 =>
          obtain ⟨⟨ts, hts⟩, _⟩ := reserveObj_extend st g0 st3 ho
          have hin' : t ∈ st3.types := by
            rw [hts]
            exact List.mem_append_left _ hin
          obtain ⟨e, he⟩ := reserveProps_dup rest st3 k g t htl ht hin'
          exact ⟨e, by simp only [reserveProps, htag0, ho, he]⟩

mutual
theorem reserveObj_fresh : ∀ (f : FnObj) (st : VState),
    (collectObj f).Nodup → (∀ t ∈ collectObj f, t ∉ st.types) →
    ∃ st2, reserveObj st f = Except.ok st2 ∧
      ∃ ts, ts.Sublist (collectObj f) ∧ st2.types = st.types ++ ts
  | .mk i tag props, st, hnd, hdis => by
    simp only [collectObj] at hnd hdis
    by_cases hi : i ∈ st.reserved
    · refine ⟨st, ?_, [], List.nil_sublist _, by simp⟩
      simp only [reserveObj]
      rw [if_pos hi]
    · obtain ⟨st3, flag, hps, ts, hsub, hts⟩ := reserveProps_fresh props st hnd hdis
      refine ⟨⟨if flag then st3.reserved ++ [i] else st3.reserved, st3.types⟩, ?_,
        ts, ?_, hts⟩
      · simp only [reserveObj]
        rw [if_neg hi, hps]
      · simpa [collectObj] using hsub
theorem reserveProps_fresh : ∀ (props : PList) (st : VState),
    (collectProps props).Nodup → (∀ t ∈ collectProps props, t ∉ st.types) →
    ∃ st2 flag, reserveProps st props = Except.ok (st2, flag) ∧
      ∃ ts, ts.Sublist (collectProps props) ∧ st2.types = st.types ++ ts
  | .pnil, st, _, _ =>
    ⟨st, false, rfl, [], List.nil_sublist _, by simp⟩
  | .pplain k rest, st, hnd, hdis => by
    simp only [collectProps] at hnd hdis
    obtain ⟨st2, flag, h, ts, hsub, hts⟩ := reserveProps_fresh rest st hnd hdis
    refine ⟨st2, flag, ?_, ts, ?_, hts⟩
    · simp only [reserveProps]
      exact h
    · simpa [collectProps] using hsub
  | .pfn k g rest, st, hnd, hdis => by
    cases htag : truthyTag g.tag with
    | some t =>
      have hcol : collectProps (.pfn k g rest) = t :: collectProps rest := by
        simp [collectProps, htag]
      rw [hcol] at hnd hdis
      have hnotin : t ∉ st.types := hdis t (by simp)
      obtain ⟨hnd1, hnd2⟩ := List.nodup_cons.mp hnd
      have hdis' : ∀ u ∈ collectProps rest, u ∉ st.types ++ [t] := by
        intro u hu
        simp only [List.mem_append, List.mem_singleton]
        push_neg
        exact ⟨hdis u (by simp [hu]), fun hut => absurd (hut ▸ hu) hnd1⟩
      obtain ⟨st2, flag, h, ts, hsub, hts⟩ :=
        reserveProps_fresh rest ⟨st.reserved, st.types ++ [t]⟩ hnd2 hdis'
      refine ⟨st2, true, ?_, t :: ts, ?_, ?_⟩
      · simp only [reserveProps, htag]
        rw [if_neg hnotin, h]
      · rw [hcol]
        exact hsub.cons₂ t
      · rw [hts]
        simp
    | none =>
      have hcol : collectProps (.pfn k g rest) = collectObj g ++ collectProps rest := by
        simp [collectProps, htag]
      rw [hcol] at hnd hdis
      rw [List.nodup_append] at hnd
      obtain ⟨hnd1, hnd2, hdisj⟩ := hnd
      have hdis1 : ∀ u ∈ collectObj g, u ∉ st.types :=
        fun u hu => hdis u (List.mem_append_left _ hu)
      obtain ⟨st3, ho, ts1, hsub1, hts1⟩ := reserveObj_fresh g st hnd1 hdis1
      have hdis2 : ∀ u ∈ collectProps rest, u ∉ st3.types := by
        intro u hu
        rw [hts1]
        simp only [List.mem_append]
        push_neg
        refine ⟨hdis u (List.mem_append_right _ hu), fun hmem => ?_⟩
        exact hdisj (hsub1.subset hmem) hu
      obtain ⟨st2, flag, h, ts2, hsub2, hts2⟩ := reserveProps_fresh rest st3 hnd2 hdis2
      refine ⟨st2, flag, ?_, ts1 ++ ts2, ?_, ?_⟩
      · simp only [reserveProps, htag, ho]
        exact h
      · rw [hcol]
        exact List.Sublist.append hsub1 hsub2
      · rw [hts2, hts1, List.append_assoc]
end

mutual
/-- When no visited object is pre-reserved and the visited identities are
pairwise distinct (no sharing), a successful walk records exactly the
collected types in order, and reserves only visited identities. -/
theorem reserveObj_exact : ∀ (st : VState) (f : FnObj) (st2 : VState),
    (objOids f).Nodup → (∀ i ∈ objOids f, i ∉ st.reserved) →
    reserveObj st f = Except.ok st2 →
    st2.types = st.types ++ collectObj f ∧
    ∀ j, j ∉ st.reserved → j ∉ objOids f → j ∉ st2.reserved
  | st, .mk i tag props, st2, hnd, hres, h => by
    simp only [reserveObj] at h
    have hi : i ∉ st.reserved := hres i (by simp [objOids])
    rw [if_neg hi] at h
    cases hps : reserveProps st props with
    | error e => rw [hps] at h; exact absurd h (by simp)
    | ok p =>
      obtain ⟨st3, flag⟩ := p
      rw [hps] at h
      injection h with h'
      subst h'
      simp only [objOids, List.nodup_cons] at hnd
      have hres' : ∀ j ∈ propsOids props, j ∉ st.reserved :=
        fun j hj => hres j (by simp [objOids, hj])
      obtain ⟨hty, hpres⟩ := reserveProps_exact st props st3 flag hnd.2 hres' hps
      refine ⟨by simpa [collectObj] using hty, ?_⟩
      intro j hj hjo
      simp only [objOids, List.mem_cons] at hjo
      push_neg at hjo
      have hj3 : j ∉ st3.reserved := hpres j hj hjo.2
      cases flag <;> simp [hj3, hjo.1]
theorem reserveProps_exact : ∀ (st : VState) (props : PList) (st2 : VState) (flag : Bool),
    (propsOids props).Nodup → (∀ i ∈ propsOids props, i ∉ st.reserved) →
    reserveProps st props = Except.ok (st2, flag) →
    st2.types = st.types ++ collectProps props ∧
    ∀ j, j ∉ st.reserved → j ∉ propsOids props → j ∉ st2.reserved
  | st, .pnil, st2, flag, _, _, h => by
    simp only [reserveProps] at h
    injection h with h'
    obtain ⟨h1, h2⟩ := Prod.mk.inj h'
    subst h1
    exact ⟨by simp [collectProps], fun j hj _ => hj⟩
  | st, .pplain k rest, st2, flag, hnd, hres, h => by
    simp only [reserveProps] at h
    simp only [propsOids] at hnd hres
    obtain ⟨hty, hpres⟩ := reserveProps_exact st rest st2 flag hnd hres h
    exact ⟨by simpa [collectProps] using hty, fun j hj hjo => hpres j hj (by
      simpa [propsOids] using hjo)⟩
  | st, .pfn k g rest, st2, flag, hnd, hres, h => by
    simp only [reserveProps] at h
    cases htag : truthyTag g.tag with
    | some t =>
      simp only [htag] at h
      have hoids : propsOids (.pfn k g rest) = propsOids rest := by
        simp [propsOids, htag]
      rw [hoids] at hnd hres
      have hcol : collectProps (.pfn k g rest) = t :: collectProps rest := by
        simp [collectProps, htag]
      by_cases hmem : t ∈ st.types
      · rw [if_pos hmem] at h
        exact absurd h (by simp)
      · rw [if_neg hmem] at h
        cases hr : reserveProps ⟨st.reserved, st.types ++ [t]⟩ rest with
        | error e => rw [hr] at h; exact absurd h (by simp)
        | ok p =>
          obtain ⟨st3, fl⟩ := p
          rw [hr] at h
          injection h with h'
          obtain ⟨h1, h2⟩ := Prod.mk.inj h'
          subst h1
          obtain ⟨hty, hpres⟩ :=
            reserveProps_exact ⟨st.reserved, st.types ++ [t]⟩ rest _ fl hnd hres hr
          refine ⟨?_, ?_⟩
          · rw [hcol, hty]
            simp
          · intro j hj hjo
            rw [hoids] at hjo
            exact hpres j hj hjo
    | none =>
      simp only [htag] at h
      have hoids : propsOids (.pfn k g rest) = objOids g ++ propsOids rest := by
        simp [propsOids, htag]
      rw [hoids] at hnd hres
      rw [List.nodup_append] at hnd
      obtain ⟨hnd1, hnd2, hdisj⟩ := hnd
      have hcol : collectProps (.pfn k g rest) = collectObj g ++ collectProps rest := by
        simp [collectProps, htag]
      cases ho : reserveObj st g with
      | error e => rw [ho] at h; exact absurd h (by simp)
      | ok st3 =>
        rw [ho] at h
        have hres1 : ∀ i ∈ objOids g, i ∉ st.reserved :=
          fun i hi => hres i (List.mem_append_left _ hi)
        obtain ⟨hty1, hpres1⟩ := reserveObj_exact st g st3 hnd1 hres1 ho
        have hres2 : ∀ i ∈ propsOids rest, i ∉ st3.reserved := by
          intro i hi
          exact hpres1 i (hres i (List.mem_append_right _ hi))
            (fun hmem => hdisj hmem hi)
        obtain ⟨hty2, hpres2⟩ := reserveProps_exact st3 rest st2 flag hnd2 hres2 h
        refine ⟨?_, ?_⟩
        · rw [hcol, hty2, hty1, List.append_assoc]
        · intro j hj hjo
          rw [hoids] at hjo
          simp only [List.mem_append] at hjo
          push_neg at hjo
          exact hpres2 j (hpres1 j hj hjo.1) hjo.2
end

mutual
/-- When no visited object is pre-reserved and the visited identities are
pairwise distinct, a successful walk implies the collected types were all
fresh: pairwise distinct and absent from the recorded set. -/
theorem reserveObj_ok_fresh : ∀ (st : VState) (f : FnObj) (st2 : VState),
    (objOids f).Nodup → (∀ i ∈ objOids f, i ∉ st.reserved) →
    reserveObj st f = Except.ok st2 →
    (collectObj f).Nodup ∧ ∀ t ∈ collectObj f, t ∉ st.types
  | st, .mk i tag props, st2, hnd, hres, h => by
    simp only [reserveObj] at h
    have hi : i ∉ st.reserved := hres i (by simp [objOids])
    rw [if_neg hi] at h
    cases hps : reserveProps st props with
    | error e => rw [hps] at h; exact absurd h (by simp)
    | ok p =>
      obtain ⟨st3, flag⟩ := p
      rw [hps] at h
      simp only [objOids, List.nodup_cons] at hnd
      have hres' : ∀ j ∈ propsOids props, j ∉ st.reserved :=
        fun j hj => hres j (by simp [objOids, hj])
      obtain ⟨h1, h2⟩ := reserveProps_ok_fresh st props st3 flag hnd.2 hres' hps
      exact ⟨by simpa [collectObj] using h1, fun t ht => h2 t (by
        simpa [collectObj] using ht)⟩
theorem reserveProps_ok_fresh : ∀ (st : VState) (props : PList) (st2 : VState)
    (flag : Bool),
    (propsOids props).Nodup → (∀ i ∈ propsOids props, i ∉ st.reserved) →
    reserveProps st props = Except.ok (st2, flag) →
    (collectProps props).Nodup ∧ ∀ t ∈ collectProps props, t ∉ st.types
  | st, .pnil, st2, flag, _, _, _ => ⟨by simp [collectProps], by simp [collectProps]⟩
  | st, .pplain k rest, st2, flag, hnd, hres, h => by
    simp only [reserveProps] at h
    simp only [propsOids] at hnd hres
    obtain ⟨h1, h2⟩ := reserveProps_ok_fresh st rest st2 flag hnd hres h
    exact ⟨by simpa [collectProps] using h1, fun t ht => h2 t (by
      simpa [collectProps] using ht)⟩
  | st, .pfn k g rest, st2, flag, hnd, hres, h => by
    simp only [reserveProps] at h
    cases htag : truthyTag g.tag with
    | some t =>
      simp only [htag] at h
      have hoids : propsOids (.pfn k g rest) = propsOids rest := by
        simp [propsOids, htag]
      rw [hoids] at hnd hres
      have hcol : collectProps (.pfn k g rest) = t :: collectProps rest := by
        simp [collectProps, htag]
      by_cases hmem : t ∈ st.types
      · rw [if_pos hmem] at h
        exact absurd h (by simp)
      · rw [if_neg hmem] at h
        cases hr : reserveProps ⟨st.reserved, st.types ++ [t]⟩ rest with
        | error e => rw [hr] at h; exact absurd h (by simp)
        | ok p =>
          obtain ⟨st3, fl⟩ := p
          rw [hr] at h
          obtain ⟨h1, h2⟩ :=
            reserveProps_ok_fresh ⟨st.reserved, st.types ++ [t]⟩ rest st3 fl hnd hres hr
          rw [hcol]
          refine ⟨?_, ?_⟩
          · rw [List.nodup_cons]
            refine ⟨fun hc => ?_, h1⟩
            have := h2 t hc
            simp at this
          · intro u hu
            rcases List.mem_cons.mp hu with rfl | hu'
            · exact hmem
            · intro hc
              exact (h2 u hu') (List.mem_append_left _ hc)
    | none =>
      simp only [htag] at h
      have hoids : propsOids (.pfn k g rest) = objOids g ++ propsOids rest := by
        simp [propsOids, htag]
      rw [hoids] at hnd hres
      rw [List.nodup_append] at hnd
      obtain ⟨hnd1, hnd2, hdisj⟩ := hnd
      have hcol : collectProps (.pfn k g rest) = collectObj g ++ collectProps rest := by
        simp [collectProps, htag]
      cases ho : reserveObj st g with
      | error e => rw [ho] at h; exact absurd h (by simp)
      | ok st3 =>
        rw [ho] at h
        have hres1 : ∀ i ∈ objOids g, i ∉ st.reserved :=
          fun i hi => hres i (List.mem_append_left _ hi)
        obtain ⟨hg1, hg2⟩ := reserveObj_ok_fresh st g st3 hnd1 hres1 ho
        obtain ⟨hty1, hpres1⟩ := reserveObj_exact st g st3 hnd1 hres1 ho
        have hres2 : ∀ i ∈ propsOids rest, i ∉ st3.reserved := by
          intro i hi
          exact hpres1 i (hres i (List.mem_append_right _ hi))
            (fun hmem => hdisj hmem hi)
        obtain ⟨hr1, hr2⟩ := reserveProps_ok_fresh st3 rest st2 flag hnd2 hres2 h
        have hr2' : ∀ u ∈ collectProps rest, u ∉ st.types ∧ u ∉ collectObj g := by
          intro u hu
          have := hr2 u hu
          rw [hty1] at this
          simp only [List.mem_append] at this
          push_neg at this
          exact this
        rw [hcol]
        refine ⟨?_, ?_⟩
        · rw [List.nodup_append]
          exact ⟨hg1, hr1, fun a ha hb => (hr2' a hb).2 ha⟩
        · intro u hu
          rcases List.mem_append.mp hu with hu' | hu'
          · exact hg2 u hu'
          · exact (hr2' u hu').1
end

/-- A function object whose walk is a no-op for a given reserved set:
either it is already reserved, or it registers nothing (no property has
a truthy tag) and all nested objects are likewise inert. -/
inductive Inert (rs : List Nat) : FnObj → Prop where
  | mem : ∀ (i : Nat) (tag : Option String) (props : PList),
      i ∈ rs → Inert rs (.mk i tag props)
  | clean : ∀ (i : Nat) (tag : Option String) (props : PList),
      (∀ k g, (k, g) ∈ props.fns → truthyTag g.tag = none) →
      (∀ k g, (k, g) ∈ props.fns → Inert rs g) →
      Inert rs (.mk i tag props)

theorem inert_mono (rs rs2 : List Nat) (hsub : ∀ i ∈ rs, i ∈ rs2) (f : FnObj)
    (h : Inert rs f) : Inert rs2 f := by
  induction h with
  | mem i tag props hi => exact Inert.mem i tag props (hsub i hi)
  | clean i tag props hnone hchild ih =>
    exact Inert.clean i tag props hnone (fun k g hm => ih k g hm)

theorem reserveProps_inert : ∀ (props : PList) (s : VState),
    (∀ k g, (k, g) ∈ props.fns →
      truthyTag g.tag = none ∧ reserveObj s g = Except.ok s) →
    reserveProps s props = Except.ok (s, false)
  | .pnil, s, _ => rfl
  | .pplain k rest, s, h => by
    simp only [reserveProps]
    exact reserveProps_inert rest s (fun k2 g2 hm => h k2 g2 (by simp [PList.fns, hm]))
  | .pfn k g rest, s, h => by
    obtain ⟨htag, hok⟩ := h k g (by simp [PList.fns])
    simp only [reserveProps, htag, hok]
    exact reserveProps_inert rest s (fun k2 g2 hm => h k2 g2 (by simp [PList.fns, hm]))

theorem inert_noop (rs : List Nat) (f : FnObj) (h : Inert rs f) :
    ∀ s : VState, (∀ i ∈ rs, i ∈ s.reserved) → reserveObj s f = Except.ok s := by
  induction h with
  | mem i tag props hi =>
    intro s hsub
    simp only [reserveObj]
    rw [if_pos (hsub i hi)]
  | clean i tag props hnone hchild ih =>
    intro s hsub
    simp only [reserveObj]
    by_cases hi : i ∈ s.reserved
    · rw [if_pos hi]
    · rw [if_neg hi]
      rw [reserveProps_inert props s (fun k g hm => ⟨hnone k g hm, ih k g hm s hsub⟩)]
      rfl

mutual
theorem reserveObj_post : ∀ (s : VState) (f : FnObj) (s2 : VState),
    reserveObj s f = Except.ok s2 → Inert s2.reserved f
  | s, .mk i tag props, s2, h => by
    simp only [reserveObj] at h
    by_cases hi : i ∈ s.reserved
    · rw [if_pos hi] at h
      injection h with h'
      subst h'
      exact Inert.mem i tag props hi
    · rw [if_neg hi] at h
      cases hps : reserveProps s props with
      | error e => rw [hps] at h; exact absurd h (by simp)
      | ok p =>
        obtain ⟨st3, flag⟩ := p
        rw [hps] at h
        cases flag with
        | true =>
          injection h with h'
          subst h'
          exact Inert.mem i tag props (by simp)
        | false =>
          injection h with h'
          subst h'
          exact Inert.clean i tag props
            (fun k g hm =>
              ((reserveProps_post s props st3 false hps) k g hm).2 rfl)
            (fun k g hm =>
              ((reserveProps_post s props st3 false hps) k g hm).1
                (((reserveProps_post s props st3 false hps) k g hm).2 rfl))
theorem reserveProps_post : ∀ (s : VState) (props : PList) (s2 : VState) (flag : Bool),
    reserveProps s props = Except.ok (s2, flag) →
    ∀ k g, (k, g) ∈ props.fns →
      (truthyTag g.tag = none → Inert s2.reserved g) ∧
      (flag = false → truthyTag g.tag = none)
  | s, .pnil, s2, flag, h, k, g, hm => by
    simp [PList.fns] at hm
  | s, .pplain k0 rest, s2, flag, h, k, g, hm => by
    simp only [reserveProps] at h
    simp only [PList.fns] at hm
    exact reserveProps_post s rest s2 flag h k g hm
  | s, .pfn k0 g0 rest, s2, flag, h, k, g, hm => by
    simp only [reserveProps] at h
    simp only [PList.fns, List.mem_cons] at hm
    cases htag : truthyTag g0.tag with
    | some t =>
      simp only [htag] at h
      by_cases hmem : t ∈ s.types
      · rw [if_pos hmem] at h
        exact absurd h (by simp)
      · rw [if_neg hmem] at h
        cases hr : reserveProps ⟨s.reserved, s.types ++ [t]⟩ rest with
        | error e => rw [hr] at h; exact absurd h (by simp)
        | ok p =>
          obtain ⟨st3, fl⟩ := p
          rw [hr] at h
          injection h with h'
          obtain ⟨h1, h2⟩ := Prod.mk.inj h'
          subst h1
          rcases hm with heq | htl
          · obtain ⟨rfl, rfl⟩ := Prod.mk.inj heq
            refine ⟨?_, ?_⟩
            · intro hnone
              rw [htag] at hnone
              exact absurd hnone (by simp)
            · intro hfl
              rw [← h2] at hfl
              exact absurd hfl (by simp)
          · have hrec := reserveProps_post ⟨s.reserved, s.types ++ [t]⟩ rest _ fl hr k g htl
            refine ⟨hrec.1, ?_⟩
            intro hfl
            rw [← h2] at hfl
            exact absurd hfl (by simp)
    | none =>
      simp only [htag] at h
      cases ho : reserveObj s g0 with
      | error e => rw [ho] at h; exact absurd h (by simp)
      | ok st3 =>
        rw [ho] at h
        rcases hm with heq | htl
        · obtain ⟨rfl, rfl⟩ := Prod.mk.inj heq
          refine ⟨?_, fun _ => htag⟩
          intro _
          have hinert := reserveObj_post s g st3 ho
          obtain ⟨_, ⟨rs, hrs⟩⟩ := reserveProps_extend st3 rest s2 flag h
          exact inert_mono st3.reserved s2.reserved
            (fun i hi => by rw [hrs]; exact List.mem_append_left _ hi) g hinert
        · exact reserveProps_post st3 rest s2 flag h k g htl
end

/-- C5 — the duplicate-type validator raises exactly on an encountered
collision and is idempotent by identity: (1) when the reducer is not yet
reserved and one of its function properties carries a truthy `.type`
already present in the recorded set, validation fails; (2) when every
type the walk can reach is fresh and pairwise distinct, validation
succeeds; (3) conversely, when no visited object is pre-reserved and the
visited identities are pairwise distinct (no pre-validated or shared
sub-tree to skip), validation fails whenever the reachable types are
*not* fresh and pairwise distinct — covering a duplicate met at any
depth of the recursive walk, against a previously recorded type or
against one recorded earlier in the same walk; (4) re-validating any
successfully validated reducer returns the same state unchanged — in
particular it never raises a duplicate against the types that very
reducer registered the first time. -/
theorem duplicate_validator (st : VState) (f : FnObj) :
    (∀ (k : String) (g : FnObj) (t : String), f.oid ∉ st.reserved →
      (k, g) ∈ f.props.fns → truthyTag g.tag = some t → t ∈ st.types →
      ∃ e, reserveObj st f = Except.error e) ∧
    ((collectObj f).Nodup → (∀ t ∈ collectObj f, t ∉ st.types) →
      ∃ st2, reserveObj st f = Except.ok st2) ∧
    ((objOids f).Nodup → (∀ i ∈ objOids f, i ∉ st.reserved) →
      ¬ ((collectObj f).Nodup ∧ ∀ t ∈ collectObj f, t ∉ st.types) →
      ∃ e, reserveObj st f = Except.error e) ∧
    (∀ st2, reserveObj st f = Except.ok st2 → reserveObj st2 f = Except.ok st2) := by
  refine ⟨?_, ?_, ?_, ?_⟩
  · intro k g t hoid hmem htag hin
    cases f with
    | mk i tg props =>
      simp only [FnObj.oid] at hoid
      simp only [FnObj.props] at hmem
      obtain ⟨e, he⟩ := reserveProps_dup props st k g t hmem htag hin
      refine ⟨e, ?_⟩
      simp only [reserveObj]
      rw [if_neg hoid, he]
  · intro hnd hdis
    obtain ⟨st2, h, _⟩ := reserveObj_fresh f st hnd hdis
    exact ⟨st2, h⟩
  · intro hoids hres hnotfresh
    cases h : reserveObj st f with
    | error e => exact ⟨e, rfl⟩
    | ok st2 => exact absurd (reserveObj_ok_fresh st f st2 hoids hres h) hnotfresh
  · intro st2 h
    exact inert_noop st2.reserved f (reserveObj_post st f st2 h) st2 (fun i hi => hi)

/-- Witness for C5: a reducer whose `setBar` invoker carries a type
already recorded fails; with an empty recorded set the same reducer
validates successfully; and the combined reducer whose two distinct
children both expose an invoker with the same type `|r1:setBar` (a
nested, intra-walk duplicate) fails. -/
theorem duplicate_validator_witness :
    (∃ e, reserveObj (VState.mk [] ["|r1:setBar"])
      (FnObj.mk 0 none (.pfn "setBar" (.mk 1 (some "|r1:setBar") .pnil) .pnil)) =
      Except.error e) ∧
    (∃ st2, reserveObj (VState.mk [] [])
      (FnObj.mk 0 none (.pfn "setBar" (.mk 1 (some "|r1:setBar") .pnil) .pnil)) =
      Except.ok st2) ∧
    (∃ e, reserveObj (VState.mk [] [])
      (FnObj.mk 0 none
        (.pfn "r1" (.mk 1 none (.pfn "setBar" (.mk 2 (some "|r1:setBar") .pnil) .pnil))
          (.pfn "r2" (.mk 3 none (.pfn "setBar" (.mk 4 (some "|r1:setBar") .pnil) .pnil))
            .pnil))) =
      Except.error e) :=
  ⟨(duplicate_validator (VState.mk [] ["|r1:setBar"])
      (FnObj.mk 0 none (.pfn "setBar" (.mk 1 (some "|r1:setBar") .pnil) .pnil))).1
    "setBar" (.mk 1 (some "|r1:setBar") .pnil) "|r1:setBar"
    (by simp [FnObj.oid]) (by simp [FnObj.props, PList.fns])
    (by simp [FnObj.tag, truthyTag]) (by simp),
   (duplicate_validator (VState.mk [] [])
      (FnObj.mk 0 none (.pfn "setBar" (.mk 1 (some "|r1:setBar") .pnil) .pnil))).2.1
    (by simp [collectObj, collectProps, FnObj.tag, truthyTag])
    (by simp [collectObj, collectProps, FnObj.tag, truthyTag]),
   (duplicate_validator (VState.mk [] [])
      (FnObj.mk 0 none
        (.pfn "r1" (.mk 1 none (.pfn "setBar" (.mk 2 (some "|r1:setBar") .pnil) .pnil))
          (.pfn "r2" (.mk 3 none (.pfn "setBar" (.mk 4 (some "|r1:setBar") .pnil) .pnil))
            .pnil)))).2.2.1
    (by simp [objOids, propsOids, FnObj.tag, truthyTag])
    (by simp [objOids, propsOids, FnObj.tag, truthyTag])
    (by
      intro hcontra
      have hcol : collectObj
          (FnObj.mk 0 none
            (.pfn "r1"
              (.mk 1 none (.pfn "setBar" (.mk 2 (some "|r1:setBar") .pnil) .pnil))
              (.pfn "r2"
                (.mk 3 none (.pfn "setBar" (.mk 4 (some "|r1:setBar") .pnil) .pnil))
                .pnil))) = ["|r1:setBar", "|r1:setBar"] := by
        simp [collectObj, collectProps, FnObj.tag, truthyTag]
      rw [hcol] at hcontra
      simp at hcontra)⟩

end Actionize
